import Mathlib

/-!
Verification of the client-side logic of the Retail Analytics dashboard
(`static/script.js`).  The relevant JavaScript functions are shallowly
embedded as executable Lean definitions: JS objects become structures with
`Option`-typed fields (`none` models `undefined`/missing), JS numbers are
modelled as exact rationals, and the module-level mutable variables become
explicit state records threaded through the operations.
-/

namespace RetailAnalytics

/-! ## JS value model and generic helpers -/

/-- A JavaScript value as it occurs in the filter/parameter objects passed
to `buildQuery`: a string, a number, `null`, or `undefined`. -/
inductive JSValue where
  | str (s : String)
  | num (n : ℤ)
  | null
  | undef
  deriving DecidableEq

/-- JS truthiness of an optional string field (`undefined`, `null` and the
empty string are falsy). -/
def jsTruthyStr : Option String → Bool
  | some s => s ≠ ""
  | none => false

/-- Model of JS `Array.prototype.join(sep)` on a list of strings. -/
def joinWith (sep : String) : List String → String
  | [] => ""
  | [x] => x
  | x :: xs => x ++ sep ++ joinWith sep xs

/-- Characters left unescaped by the `encodeURIComponent` builtin. -/
def isUnreservedChar (c : Char) : Bool :=
  c.isAlphanum || c = '-' || c = '_' || c = '.' || c = '!' || c = '~' ||
    c = '*' || c = '\'' || c = '(' || c = ')'

/-- Hexadecimal digit for `n < 16`. -/
def hexDigit (n : ℕ) : Char :=
  if n < 10 then Char.ofNat ('0'.toNat + n) else Char.ofNat ('A'.toNat + n - 10)

/-- UTF-8 bytes of a character. -/
def utf8Bytes (c : Char) : List ℕ :=
  let n := c.toNat
  if n < 0x80 then [n]
  else if n < 0x800 then [0xC0 + n / 64, 0x80 + n % 64]
  else if n < 0x10000 then [0xE0 + n / 4096, 0x80 + (n / 64) % 64, 0x80 + n % 64]
  else [0xF0 + n / 262144, 0x80 + (n / 4096) % 64, 0x80 + (n / 64) % 64, 0x80 + n % 64]

/-- Percent-encoding of one byte. -/
def percentByte (b : ℕ) : String :=
  "%" ++ String.mk [hexDigit (b / 16), hexDigit (b % 16)]

/-- Model of the `encodeURIComponent` browser builtin. -/
def encodeURIComponent (s : String) : String :=
  String.join (s.data.map fun c =>
    if isUnreservedChar c then String.mk [c]
    else String.join ((utf8Bytes c).map percentByte))

/-- String coercion applied to a parameter value when it is interpolated
into the query string. -/
def jsValueToString : JSValue → String
  | .str s => s
  | .num n => toString n
  | .null => "null"
  | .undef => "undefined"

/-! ## `buildQuery` (script.js lines 15-21) -/

/-- The filter used by `buildQuery`:
`params[k] !== undefined && params[k] !== null && params[k] !== ""`. -/
def keepParam : JSValue → Bool
  | .str s => s ≠ ""
  | .num _ => true
  | .null => false
  | .undef => false

/-- `buildQuery` from `script.js`: keep the parameters with non-empty
values, render each as `enc(k)=enc(v)`, join with `&`, and prepend `?`
only when the query is non-empty. -/
def buildQuery (params : List (String × JSValue)) : String :=
  let query := joinWith "&"
    ((params.filter fun p => keepParam p.2).map fun p =>
      encodeURIComponent p.1 ++ "=" ++ encodeURIComponent (jsValueToString p.2))
  if query = "" then "" else "?" ++ query

/-- The keys that `buildQuery` serialises into the query string: exactly
the keys surviving its non-empty filter, in order. -/
def queryKeys (params : List (String × JSValue)) : List String :=
  (params.filter fun p => keepParam p.2).map Prod.fst

theorem length_joinWith_cons (sep : String) (x : String) (xs : List String) :
    x.length ≤ (joinWith sep (x :: xs)).length := by
  cases xs with
  | nil => simp [joinWith]
  | cons y ys => simp [joinWith, String.length_append]; omega

theorem encodeURIComponent_eq_length (s s' : String) :
    (encodeURIComponent s ++ "=" ++ encodeURIComponent s').length =
      (encodeURIComponent s).length + 1 + (encodeURIComponent s').length := by
  simp [String.length_append]
  rfl

theorem ne_empty_of_length_pos {s : String} (h : 0 < s.length) : s ≠ "" := by
  intro hs
  rw [hs] at h
  simp at h

/-- C6: for every parameter map, the derived query string produced by
`buildQuery` contains exactly the keys whose value is not `undefined`, not
`null`, and not the empty string, and when no key survives the result is
the empty string with no leading `?`; otherwise it is `?` followed by a
non-empty query. -/
theorem mem_queryKeys {params : List (String × JSValue)} {k : String} :
    k ∈ queryKeys params ↔ ∃ v, (k, v) ∈ params ∧ keepParam v = true := by
  constructor
  · intro hk
    rcases List.mem_map.1 hk with ⟨p, hp, rfl⟩
    rcases List.mem_filter.1 hp with ⟨hmem, hkeep⟩
    exact ⟨p.2, hmem, hkeep⟩
  · rintro ⟨v, hmem, hkeep⟩
    exact List.mem_map.2 ⟨(k, v), List.mem_filter.2 ⟨hmem, hkeep⟩, rfl⟩

theorem buildQuery_exact_nonempty_keys (params : List (String × JSValue)) :
    (∀ k, k ∈ queryKeys params ↔ ∃ v, (k, v) ∈ params ∧ keepParam v = true) ∧
    (buildQuery params = "" ↔ queryKeys params = []) ∧
    (queryKeys params ≠ [] → ∃ q, q ≠ "" ∧ buildQuery params = "?" ++ q) := by
  refine ⟨fun k => mem_queryKeys, ?_⟩
  cases h : params.filter fun p => keepParam p.2 with
  | nil =>
      constructor
      · simp [buildQuery, queryKeys, h, joinWith]
      · simp [queryKeys, h]
  | cons p rest =>
      have hpart := encodeURIComponent_eq_length p.1 (jsValueToString p.2)
      have hjoin := length_joinWith_cons "&"
        (encodeURIComponent p.1 ++ "=" ++ encodeURIComponent (jsValueToString p.2))
        (rest.map fun p => encodeURIComponent p.1 ++ "=" ++ encodeURIComponent (jsValueToString p.2))
      have hqlen : 0 < (joinWith "&" (((p :: rest).map fun p =>
          encodeURIComponent p.1 ++ "=" ++ encodeURIComponent (jsValueToString p.2)))).length := by
        simp only [List.map_cons]
        omega
      have hqne := ne_empty_of_length_pos hqlen
      constructor
      · constructor
        · intro hb
          exfalso
          rw [buildQuery, h] at hb
          simp only [if_neg hqne] at hb
          have : (("?" : String) ++ joinWith "&" ((p :: rest).map fun p =>
              encodeURIComponent p.1 ++ "=" ++ encodeURIComponent (jsValueToString p.2))).length = 0 := by
            rw [hb]; rfl
          rw [String.length_append] at this
          omega
        · intro hk
          simp [queryKeys, h] at hk
      · intro _
        refine ⟨joinWith "&" ((p :: rest).map fun p =>
          encodeURIComponent p.1 ++ "=" ++ encodeURIComponent (jsValueToString p.2)), hqne, ?_⟩
        rw [buildQuery, h]
        simp only [if_neg hqne]

/-- Witness for C6 at a concrete parameter map. -/
theorem buildQuery_exact_nonempty_keys_witness :
    ∃ q, q ≠ "" ∧ buildQuery [("a", .str "x"), ("b", .null), ("c", .str "")] = "?" ++ q :=
  (buildQuery_exact_nonempty_keys [("a", .str "x"), ("b", .null), ("c", .str "")]).2.2
    (by decide)

/-! ## `getFilters` (script.js lines 120-131) -/

/-- The DOM inputs of the filter bar as read by `getFilters` and
`clearFilters`: the two date inputs, the multi-select country list and the
segment select. -/
structure FilterDom where
  startDate : String
  endDate : String
  selectedCountries : List String
  segment : String
  deriving DecidableEq

/-- `getFilters` from `script.js`: builds the filter object
`{start_date, end_date, countries}` from the DOM, mapping empty inputs to
`null` and joining the non-empty selected countries with commas.  The
object is represented as its ordered key/value list. -/
def getFilters (dom : FilterDom) : List (String × JSValue) :=
  let selectedCountries := dom.selectedCountries.filter fun v => v ≠ ""
  [("start_date", if dom.startDate = "" then .null else .str dom.startDate),
   ("end_date", if dom.endDate = "" then .null else .str dom.endDate),
   ("countries", if selectedCountries.length ≠ 0
      then .str (joinWith "," selectedCountries) else .null)]

/-- Counterexample to C3: with a non-empty segment selection ("VIP"), the
filter object built by `getFilters` yields a query whose keys are only
`start_date` and `countries` — `segment` does not appear. -/
theorem getFilters_segment_missing_counterexample :
    queryKeys (getFilters ⟨"2021-01-01", "", ["UK"], "VIP"⟩) = ["start_date", "countries"] ∧
    "segment" ∉ queryKeys (getFilters ⟨"2021-01-01", "", ["UK"], "VIP"⟩) ∧
    buildQuery (getFilters ⟨"2021-01-01", "", ["UK"], "VIP"⟩) =
      "?start_date=2021-01-01&countries=UK" := by
  refine ⟨by decide, by decide, ?_⟩
  rfl

/-- C3 (amended): `getFilters` reads only the date range and country
inputs; each of `start_date`, `end_date` and `countries` is appended to
the derived query string exactly when its value is non-empty, and
`segment` never appears regardless of the segment selection. -/
theorem getFilters_query_keys (dom : FilterDom) :
    ("start_date" ∈ queryKeys (getFilters dom) ↔ dom.startDate ≠ "") ∧
    ("end_date" ∈ queryKeys (getFilters dom) ↔ dom.endDate ≠ "") ∧
    ("countries" ∈ queryKeys (getFilters dom) ↔
      dom.selectedCountries.filter (fun v => v ≠ "") ≠ []) ∧
    "segment" ∉ queryKeys (getFilters dom) := by
  refine ⟨?_, ?_, ?_, ?_⟩
  · rw [mem_queryKeys]
    constructor
    · rintro ⟨v, hv, hkeep⟩ h1
      simp [getFilters, h1] at hv
      subst hv
      simp [keepParam] at hkeep
    · intro h1
      exact ⟨.str dom.startDate, by simp [getFilters, h1], by simp [keepParam, h1]⟩
  · rw [mem_queryKeys]
    constructor
    · rintro ⟨v, hv, hkeep⟩ h2
      simp [getFilters, h2] at hv
      subst hv
      simp [keepParam] at hkeep
    · intro h2
      exact ⟨.str dom.endDate, by simp [getFilters, h2], by simp [keepParam, h2]⟩
  · rw [mem_queryKeys]
    constructor
    · rintro ⟨v, hv, hkeep⟩ h3
      have hno : ¬∃ y ∈ dom.selectedCountries, ¬y = "" := by
        rintro ⟨y, hy, hyne⟩
        have hmem : y ∈ dom.selectedCountries.filter fun v => v ≠ "" :=
          List.mem_filter.2 ⟨hy, by simpa using hyne⟩
        rw [h3] at hmem
        simp at hmem
      simp [getFilters, hno] at hv
      subst hv
      simp [keepParam] at hkeep
    · intro h3
      obtain ⟨x, xs, hfe⟩ : ∃ x xs, (dom.selectedCountries.filter fun v => v ≠ "") = x :: xs := by
        cases hf : dom.selectedCountries.filter fun v => v ≠ "" with
        | nil => exact absurd hf h3
        | cons a as => exact ⟨a, as, rfl⟩
      have hx : x ∈ dom.selectedCountries.filter fun v => v ≠ "" := by
        rw [hfe]; exact List.mem_cons_self x xs
      have hxne : x ≠ "" := by
        have := (List.mem_filter.1 hx).2
        simpa using this
      have hjoin : joinWith "," (dom.selectedCountries.filter fun v => v ≠ "") ≠ "" := by
        rw [hfe]
        apply ne_empty_of_length_pos
        have hxlen : 0 < x.length := by
          cases x with
          | mk data =>
            cases data with
            | nil => exact absurd rfl hxne
            | cons c cs => simp [String.length]
        have := length_joinWith_cons "," x xs
        omega
      have hex : ∃ y ∈ dom.selectedCountries, ¬y = "" := by
        rcases List.mem_filter.1 hx with ⟨hmem, hp⟩
        exact ⟨x, hmem, by simpa using hp⟩
      refine ⟨.str (joinWith "," (dom.selectedCountries.filter fun v => v ≠ "")), ?_, ?_⟩
      · simp [getFilters, hex]
      · simpa [keepParam] using hjoin
  · rw [mem_queryKeys]
    rintro ⟨v, hv, _⟩
    simp [getFilters] at hv

/-! ## Transaction records and shared aggregation helpers -/

/-- A transaction record as returned by the backend.  Every field may be
missing (`none` models JS `undefined`). -/
structure Transaction where
  _id : Option String := none
  Invoice : Option String := none
  InvoiceDate : Option String := none
  StockCode : Option String := none
  Description : Option String := none
  Quantity : Option ℤ := none
  Price : Option ℚ := none
  CustomerID : Option String := none
  Country : Option String := none
  deriving DecidableEq

/-- Derived revenue of one transaction line:
`(t.Quantity || 0) * (t.Price || 0)`. -/
def revenue (t : Transaction) : ℚ :=
  ((t.Quantity.getD 0 : ℤ) : ℚ) * t.Price.getD 0

/-! ### A model of `Array.prototype.sort` (insertion sort)

`sortLe le l` sorts `l` so that `a` precedes `b` whenever `le a b`; it is
used with the comparator functions passed to the JS `sort` calls. -/

def insertLe (le : α → α → Bool) (x : α) : List α → List α
  | [] => [x]
  | y :: ys => if le x y then x :: y :: ys else y :: insertLe le x ys

def sortLe (le : α → α → Bool) : List α → List α
  | [] => []
  | x :: xs => insertLe le x (sortLe le xs)

theorem insertLe_perm (le : α → α → Bool) (x : α) (l : List α) :
    List.Perm (insertLe le x l) (x :: l) := by
  induction l with
  | nil => exact List.Perm.refl _
  | cons y ys ih =>
      by_cases h : le x y = true
      · simp [insertLe, h]
      · simp only [insertLe, if_neg h]
        exact List.Perm.trans (ih.cons y) (List.Perm.swap x y ys)

theorem sortLe_perm (le : α → α → Bool) (l : List α) : List.Perm (sortLe le l) l := by
  induction l with
  | nil => exact List.Perm.refl _
  | cons x xs ih =>
      exact List.Perm.trans (insertLe_perm le x (sortLe le xs)) (ih.cons x)

theorem insertLe_pairwise (le : α → α → Bool)
    (htrans : ∀ a b c, le a b = true → le b c = true → le a c = true)
    (htotal : ∀ a b, le a b = true ∨ le b a = true)
    (x : α) (l : List α) (hl : l.Pairwise fun a b => le a b = true) :
    (insertLe le x l).Pairwise fun a b => le a b = true := by
  induction l with
  | nil => simp [insertLe]
  | cons y ys ih =>
      rcases List.pairwise_cons.1 hl with ⟨hy, hys⟩
      by_cases h : le x y = true
      · simp only [insertLe, if_pos h]
        refine List.pairwise_cons.2 ⟨?_, hl⟩
        intro z hz
        rcases List.mem_cons.1 hz with rfl | hz'
        · exact h
        · exact htrans x y z h (hy z hz')
      · simp only [insertLe, if_neg h]
        refine List.pairwise_cons.2 ⟨?_, ih hys⟩
        intro z hz
        have hz' : z ∈ x :: ys := (insertLe_perm le x ys).mem_iff.1 hz
        rcases List.mem_cons.1 hz' with heq | hz''
        · rw [heq]
          rcases htotal x y with hxy | hyx
          · exact absurd hxy h
          · exact hyx
        · exact hy z hz''

theorem sortLe_pairwise (le : α → α → Bool)
    (htrans : ∀ a b c, le a b = true → le b c = true → le a c = true)
    (htotal : ∀ a b, le a b = true ∨ le b a = true)
    (l : List α) : (sortLe le l).Pairwise fun a b => le a b = true := by
  induction l with
  | nil => simp [sortLe]
  | cons x xs ih => exact insertLe_pairwise le htrans htotal x (sortLe le xs) ih

/-! ## `fetchCategoryDistribution` aggregation (script.js lines 470-482) -/

/-- Helper for `jsSplitSpace`: split a character list at each space,
accumulating the current chunk in reverse. -/
def splitSpaceAux : List Char → List Char → List String
  | [], cur => [String.mk cur.reverse]
  | c :: rest, cur =>
      if c = ' ' then String.mk cur.reverse :: splitSpaceAux rest []
      else splitSpaceAux rest (c :: cur)

/-- Model of the JS builtin `s.split(' ')`: split at every single space,
keeping empty chunks. -/
def jsSplitSpace (s : String) : List String :=
  splitSpaceAux s.data []

/-- The category of a description: `t.Description.split(' ')[0] || 'Other'`. -/
def firstToken (d : String) : String :=
  let c := (jsSplitSpace d).headD ""
  if c = "" then "Other" else c

/-- Whether transaction `t` falls into category bucket `k`. -/
def inCategory (k : String) (t : Transaction) : Bool :=
  jsTruthyStr t.Description && (firstToken (t.Description.getD "") == k)

/-- `categories[k] = (categories[k] || 0) + v` on the insertion-ordered
object, modelled as an association list with unique keys. -/
def addQ (k : String) (v : ℚ) : List (String × ℚ) → List (String × ℚ)
  | [] => [(k, v)]
  | (k', x) :: rest => if k' = k then (k', x + v) :: rest else (k', x) :: addQ k v rest

/-- JS object property lookup on the association list. -/
def lookupQ : List (String × ℚ) → String → Option ℚ
  | [], _ => none
  | p :: rest, k => if p.1 = k then some p.2 else lookupQ rest k

/-- The `categories` object built by `fetchCategoryDistribution`: for each
transaction with a truthy `Description`, add its revenue to the bucket of
the first space-delimited token. -/
def categoryBuckets (ts : List Transaction) : List (String × ℚ) :=
  ts.foldl (fun acc t =>
    if jsTruthyStr t.Description then
      addQ (firstToken (t.Description.getD "")) (revenue t) acc
    else acc) []

/-- Total revenue of the transactions in category `k`. -/
def bucketSum (k : String) : List Transaction → ℚ
  | [] => 0
  | t :: ts => (if inCategory k t then revenue t else 0) + bucketSum k ts

/-- The chart data of `fetchCategoryDistribution`: the category entries
sorted descending by value (`(a, b) => b[1] - a[1]`) and cut to 10. -/
def categoryTop (ts : List Transaction) : List (String × ℚ) :=
  (sortLe (fun a b => decide (b.2 ≤ a.2)) (categoryBuckets ts)).take 10

theorem lookupQ_addQ (k : String) (v : ℚ) (l : List (String × ℚ)) (k' : String) :
    lookupQ (addQ k v l) k' =
      if k' = k then some ((lookupQ l k).getD 0 + v) else lookupQ l k' := by
  induction l with
  | nil =>
      by_cases h : k' = k
      · subst h
        simp [addQ, lookupQ]
      · simp [addQ, lookupQ, h, Ne.symm h]
  | cons p rest ih =>
      obtain ⟨a, x⟩ := p
      by_cases hak : a = k
      · subst hak
        by_cases hk' : k' = a
        · subst hk'
          simp [addQ, lookupQ]
        · simp [addQ, lookupQ, hk', Ne.symm hk']
      · simp only [addQ, if_neg hak]
        by_cases hk' : k' = a
        · subst hk'
          have hne : ¬k' = k := fun hh => hak hh
          simp [lookupQ, hne]
        · simp only [lookupQ, if_neg (Ne.symm hk')]
          rw [ih]
          simp [lookupQ, hak, Ne.symm hk']

theorem addQ_keys (k : String) (v : ℚ) (l : List (String × ℚ)) :
    (addQ k v l).map Prod.fst =
      if l.any (fun p => p.1 = k) then l.map Prod.fst else l.map Prod.fst ++ [k] := by
  induction l with
  | nil => simp [addQ]
  | cons p rest ih =>
      obtain ⟨a, x⟩ := p
      by_cases hak : a = k
      · simp [addQ, hak]
      · simp only [addQ, if_neg hak, List.any_cons, List.map_cons, ih]
        by_cases hr : rest.any (fun p => p.1 = k) = true
        · simp [hr, hak]
        · simp [hr, hak]

theorem addQ_nodup_keys (k : String) (v : ℚ) (l : List (String × ℚ))
    (h : (l.map Prod.fst).Nodup) : ((addQ k v l).map Prod.fst).Nodup := by
  rw [addQ_keys]
  by_cases ha : l.any (fun p => p.1 = k) = true
  · simp [ha, h]
  · have hk : k ∉ l.map Prod.fst := by
      intro hmem
      rcases List.mem_map.1 hmem with ⟨p, hp, hfst⟩
      exact ha (List.any_eq_true.2 ⟨p, hp, by simp [hfst]⟩)
    simp [ha, List.nodup_append, h, hk]

theorem lookupQ_of_mem {l : List (String × ℚ)} {k : String} {v : ℚ}
    (hnd : (l.map Prod.fst).Nodup) (hmem : (k, v) ∈ l) : lookupQ l k = some v := by
  induction l with
  | nil => simp at hmem
  | cons p rest ih =>
      obtain ⟨a, x⟩ := p
      rcases List.mem_cons.1 hmem with heq | hmem'
      · rw [← heq]
        simp [lookupQ]
      · have hk : a ≠ k := by
          intro hak
          have : k ∈ rest.map Prod.fst := List.mem_map.2 ⟨(k, v), hmem', rfl⟩
          rw [hak] at hnd
          exact (List.nodup_cons.1 (by simpa using hnd)).1 this
        simp only [lookupQ, if_neg hk]
        exact ih (List.nodup_cons.1 (by simpa using hnd)).2 hmem'

theorem categoryBuckets_fold_lookup (l : List Transaction) (k : String) :
    ∀ acc : List (String × ℚ),
      (lookupQ (l.foldl (fun acc t =>
        if jsTruthyStr t.Description then
          addQ (firstToken (t.Description.getD "")) (revenue t) acc
        else acc) acc) k).getD 0 = (lookupQ acc k).getD 0 + bucketSum k l := by
  induction l with
  | nil => intro acc; simp [bucketSum]
  | cons t rest ih =>
      intro acc
      simp only [List.foldl_cons, bucketSum]
      by_cases hg : jsTruthyStr t.Description = true
      · simp only [if_pos hg]
        rw [ih, lookupQ_addQ]
        by_cases hk : k = firstToken (t.Description.getD "")
        · have hcat : inCategory k t = true := by
            simp [inCategory, hg, hk]
          simp only [if_pos hk, hcat, if_pos, Option.getD_some]
          rw [← hk]
          ring
        · have hcat : inCategory k t = false := by
            simp [inCategory, hg]
            intro hft
            exact absurd hft.symm hk
          simp only [if_neg hk, hcat]
          simp only [Bool.false_eq_true, if_false, zero_add]
      · simp only [if_neg hg]
        rw [ih]
        have hcat : inCategory k t = false := by simp [inCategory, hg]
        simp [hcat]

theorem categoryBuckets_fold_nodup (l : List Transaction) :
    ∀ acc : List (String × ℚ), (acc.map Prod.fst).Nodup →
      ((l.foldl (fun acc t =>
        if jsTruthyStr t.Description then
          addQ (firstToken (t.Description.getD "")) (revenue t) acc
        else acc) acc).map Prod.fst).Nodup := by
  induction l with
  | nil => intro acc h; simpa using h
  | cons t rest ih =>
      intro acc h
      simp only [List.foldl_cons]
      by_cases hg : jsTruthyStr t.Description = true
      · simp only [if_pos hg]
        exact ih _ (addQ_nodup_keys _ _ _ h)
      · simp only [if_neg hg]
        exact ih _ h

theorem categoryBuckets_value {ts : List Transaction} {k : String} {v : ℚ}
    (hmem : (k, v) ∈ categoryBuckets ts) : v = bucketSum k ts := by
  have hnd : ((categoryBuckets ts).map Prod.fst).Nodup :=
    categoryBuckets_fold_nodup ts [] (by simp)
  have hl := lookupQ_of_mem hnd hmem
  have hs := categoryBuckets_fold_lookup ts k []
  rw [categoryBuckets] at hl
  rw [hl] at hs
  simpa [lookupQ] using hs

/-- C8: for every transaction list, the category aggregation buckets
revenue by the first space-delimited token of `Description` (defaulting to
`Other`), and the rendered distribution has at most 10 entries, is sorted
descending by summed revenue, and every rendered entry carries exactly the
total revenue of its bucket. -/
theorem categoryTop_bucketed_top10_descending (ts : List Transaction) :
    (categoryTop ts).length ≤ 10 ∧
    (categoryTop ts).Pairwise (fun a b => b.2 ≤ a.2) ∧
    ∀ p ∈ categoryTop ts, p.2 = bucketSum p.1 ts := by
  refine ⟨?_, ?_, ?_⟩
  · simp [categoryTop, List.length_take]
  · have hp := sortLe_pairwise (fun a b : String × ℚ => decide (b.2 ≤ a.2))
      (fun a b c hab hbc => by
        simp only [decide_eq_true_eq] at *
        exact le_trans hbc hab)
      (fun a b => by
        simp only [decide_eq_true_eq]
        exact le_total b.2 a.2)
      (categoryBuckets ts)
    have := hp.sublist (List.take_sublist 10 _)
    exact this.imp (fun h => by simpa using h)
  · intro p hp
    have hmem : p ∈ categoryBuckets ts := by
      have h1 : p ∈ sortLe (fun a b : String × ℚ => decide (b.2 ≤ a.2)) (categoryBuckets ts) :=
        List.take_subset 10 _ hp
      exact (sortLe_perm _ _).mem_iff.1 h1
    obtain ⟨k, v⟩ := p
    exact categoryBuckets_value hmem

/-- A sample transaction for the C8 witness. -/
def sampleCategoryTx : Transaction :=
  { Description := some "RED APPLE", Quantity := some 2, Price := some 3 }

theorem sampleCategoryTx_revenue : revenue sampleCategoryTx = 6 := by
  norm_num [revenue, sampleCategoryTx]

theorem sampleCategoryTx_firstToken : firstToken "RED APPLE" = "RED" := by decide

theorem categoryTop_sample : categoryTop [sampleCategoryTx] = [("RED", (6 : ℚ))] := by
  have hb : categoryBuckets [sampleCategoryTx] = [("RED", (6 : ℚ))] := by
    simp [categoryBuckets, jsTruthyStr, sampleCategoryTx, sampleCategoryTx_firstToken,
      addQ, ← sampleCategoryTx_revenue, revenue, sampleCategoryTx]
  simp [categoryTop, hb, sortLe, insertLe]
  exact ⟨by rw [show sampleCategoryTx.Description.getD "" = "RED APPLE" from rfl]
            exact sampleCategoryTx_firstToken,
         sampleCategoryTx_revenue⟩

/-- Witness for C8 at a concrete transaction list. -/
theorem categoryTop_bucketed_top10_descending_witness :
    (("RED", (6 : ℚ)) ∈ categoryTop [sampleCategoryTx]) ∧
    ((6 : ℚ) = bucketSum "RED" [sampleCategoryTx]) := by
  have hmem : ("RED", (6 : ℚ)) ∈ categoryTop [sampleCategoryTx] := by
    rw [categoryTop_sample]
    exact List.mem_singleton.2 rfl
  exact ⟨hmem, (categoryTop_bucketed_top10_descending [sampleCategoryTx]).2.2
    ("RED", (6 : ℚ)) hmem⟩

/-! ## Product table search and sort (script.js lines 548-580) -/

/-- A product aggregate row as held in `currentProducts`. -/
structure Product where
  StockCode : Option String := none
  Description : Option String := none
  Quantity : Option ℚ := none
  Revenue : Option ℚ := none
  deriving DecidableEq

/-- Model of the JS builtin `s.includes(sub)`. -/
def jsIncludes (s sub : String) : Bool :=
  (List.range (s.length + 1)).any fun i => (s.drop i).startsWith sub

/-- Model of the JS builtin `s.toLowerCase()`. -/
def jsToLower (s : String) : String :=
  String.mk (s.data.map Char.toLower)

/-- Whitespace test used by the `trim` model. -/
def isJsSpace (c : Char) : Bool :=
  c = ' ' || c = '\t' || c = '\n' || c = '\r'

/-- Model of the JS builtin `s.trim()`. -/
def jsTrim (s : String) : String :=
  String.mk (((s.data.dropWhile isJsSpace).reverse.dropWhile isJsSpace).reverse)

/-- The module-level product cache. -/
structure ProductsState where
  currentProducts : List Product
  deriving DecidableEq

/-- `filterProducts` from `script.js`: normalise the query; an empty query
renders the cached list, otherwise render the sub-list whose lowercase
description or stock code contains the query.  Returns the rendered list;
the cache is read, never assigned. -/
def filterProducts (query : String) (st : ProductsState) : List Product × ProductsState :=
  let q := jsTrim (jsToLower query)
  if q = "" then (st.currentProducts, st)
  else
    (st.currentProducts.filter fun p =>
      jsIncludes (jsToLower (p.Description.getD "")) q ||
      jsIncludes (jsToLower (p.StockCode.getD "")) q, st)

/-- `sortProducts` from `script.js`: sort a spread-copy of the cache by the
selected key and render it; the cache itself is not assigned. -/
def sortProducts (sortBy : String) (st : ProductsState) : List Product × ProductsState :=
  let sorted := st.currentProducts
  if sortBy = "revenue" then
    (sortLe (fun a b => decide (b.Revenue.getD 0 ≤ a.Revenue.getD 0)) sorted, st)
  else if sortBy = "quantity" then
    (sortLe (fun a b => decide (b.Quantity.getD 0 ≤ a.Quantity.getD 0)) sorted, st)
  else if sortBy = "code" then
    (sortLe (fun a b => decide (a.StockCode.getD "" ≤ b.StockCode.getD "")) sorted, st)
  else (sorted, st)

/-- One user interaction with the product table. -/
inductive ProductOp where
  | search (query : String)
  | sortBy (key : String)

/-- Apply one interaction: the rendered list and the resulting state. -/
def applyProductOp (st : ProductsState) : ProductOp → List Product × ProductsState
  | .search q => filterProducts q st
  | .sortBy k => sortProducts k st

/-- Run a sequence of search/sort interactions, keeping only the state. -/
def runProductOps (st : ProductsState) (ops : List ProductOp) : ProductsState :=
  ops.foldl (fun s op => (applyProductOp s op).2) st

/-- C10: client-side product search and sort never mutate the cached
product list — after any sequence of search/sort interactions the cache
still holds the originally fetched products in their original order, and
clearing the search query re-renders exactly that original list. -/
theorem productOps_preserve_cache (st : ProductsState) (ops : List ProductOp) :
    (runProductOps st ops).currentProducts = st.currentProducts ∧
    (filterProducts "" (runProductOps st ops)).1 = st.currentProducts := by
  have hstep : ∀ (s : ProductsState) (op : ProductOp), (applyProductOp s op).2 = s := by
    intro s op
    cases op with
    | search q =>
        simp only [applyProductOp, filterProducts]
        by_cases h : jsTrim (jsToLower q) = "" <;> simp [h]
    | sortBy k =>
        simp only [applyProductOp, sortProducts]
        by_cases h1 : k = "revenue"
        · simp [h1]
        · by_cases h2 : k = "quantity"
          · simp [h1, h2]
          · by_cases h3 : k = "code" <;> simp [h1, h2, h3]
  have hrun : runProductOps st ops = st := by
    induction ops with
    | nil => rfl
    | cons op rest ih =>
        show runProductOps ((applyProductOp st op).2) rest = st
        rw [hstep st op]
        exact ih
  refine ⟨by rw [hrun], ?_⟩
  rw [hrun]
  have h0 : jsTrim (jsToLower "") = "" := by decide
  simp [filterProducts, h0]

/-! ## `renderAssociationChart` aggregation (script.js lines 1073-1101) -/

/-- `invoices[k].push(v)` on the insertion-ordered object of invoice
groups (creating the group when absent). -/
def pushInvoice (k v : String) : List (String × List String) → List (String × List String)
  | [] => [(k, [v])]
  | (k', items) :: rest =>
      if k' = k then (k', items ++ [v]) :: rest else (k', items) :: pushInvoice k v rest

/-- The `invoices` object: StockCodes grouped by `Invoice` (JS coerces a
missing key to the string "undefined"). -/
def invoiceGroups (ts : List Transaction) : List (String × List String) :=
  ts.foldl (fun acc t =>
    pushInvoice (t.Invoice.getD "undefined") (t.StockCode.getD "undefined") acc) []

/-- Strict lexicographic comparison of character lists by code point,
modelling the default JS string comparison used by `Array.sort`. -/
def charListLt : List Char → List Char → Bool
  | [], [] => false
  | [], _ :: _ => true
  | _ :: _, [] => false
  | a :: as, b :: bs =>
      if a.toNat < b.toNat then true
      else if b.toNat < a.toNat then false
      else charListLt as bs

/-- `a < b` for strings under the default JS sort comparison. -/
def jsStrLt (a b : String) : Bool :=
  charListLt a.data b.data

/-- `a ≤ b` for strings under the default JS sort comparison. -/
def jsStrLe (a b : String) : Bool :=
  !jsStrLt b a

/-! ## Ordering lemmas for the JS string comparison -/

theorem charListLt_asymm : ∀ a b : List Char,
    charListLt a b = true → charListLt b a = false := by
  intro a
  induction a with
  | nil =>
      intro b h
      cases b with
      | nil => simp [charListLt] at h
      | cons y ys => simp [charListLt]
  | cons x xs ih =>
      intro b h
      cases b with
      | nil => simp [charListLt] at h
      | cons y ys =>
          simp only [charListLt] at h ⊢
          by_cases hxy : x.toNat < y.toNat
          · have hyx : ¬y.toNat < x.toNat := by omega
            simp [hxy, hyx]
          · by_cases hyx : y.toNat < x.toNat
            · simp [hxy, hyx] at h
            · simp only [if_neg hxy, if_neg hyx] at h
              simp only [if_neg hyx, if_neg hxy]
              exact ih ys h

theorem charListLt_le_trans : ∀ a b c : List Char,
    charListLt b a = false → charListLt c b = false → charListLt c a = false := by
  intro a
  induction a with
  | nil =>
      intro b c _ _
      cases c with
      | nil => rfl
      | cons z zs => rfl
  | cons x xs ih =>
      intro b c h1 h2
      cases b with
      | nil => simp [charListLt] at h1
      | cons y ys =>
          cases c with
          | nil => simp [charListLt] at h2
          | cons z zs =>
              simp only [charListLt] at h1 h2 ⊢
              by_cases hyx : y.toNat < x.toNat
              · simp [hyx] at h1
              · by_cases hzy : z.toNat < y.toNat
                · simp [hzy] at h2
                · have hzx : ¬z.toNat < x.toNat := by omega
                  simp only [if_neg hzx]
                  by_cases hxz : x.toNat < z.toNat
                  · simp [hxz]
                  · have hxy : ¬x.toNat < y.toNat := by omega
                    have hyz : ¬y.toNat < z.toNat := by omega
                    simp only [if_neg hyx, if_neg hxy] at h1
                    simp only [if_neg hzy, if_neg hyz] at h2
                    simp only [if_neg hxz]
                    exact ih ys zs h1 h2

theorem jsStrLe_trans (a b c : String) (hab : jsStrLe a b = true)
    (hbc : jsStrLe b c = true) : jsStrLe a c = true := by
  simp only [jsStrLe, jsStrLt, Bool.not_eq_true'] at *
  exact charListLt_le_trans a.data b.data c.data hab hbc

theorem jsStrLe_total (a b : String) : jsStrLe a b = true ∨ jsStrLe b a = true := by
  simp only [jsStrLe, jsStrLt, Bool.not_eq_true']
  by_cases h : charListLt b.data a.data = true
  · right
    exact charListLt_asymm _ _ h
  · left
    simpa using h

/-- The canonical association key `[a, b].sort().join('|')`. -/
def pairKey (a b : String) : String :=
  if jsStrLe a b then a ++ "|" ++ b else b ++ "|" ++ a

/-- `associations[key] = (associations[key] || 0) + 1`. -/
def bumpAssoc (k : String) : List (String × ℕ) → List (String × ℕ)
  | [] => [(k, 1)]
  | (k', n) :: rest =>
      if k' = k then (k', n + 1) :: rest else (k', n) :: bumpAssoc k rest

/-- JS object property lookup on a counter object, defaulting to 0. -/
def countOf : List (String × ℕ) → String → ℕ
  | [], _ => 0
  | p :: rest, k => if p.1 = k then p.2 else countOf rest k

/-- The inner `items.forEach(item2 => ...)` loop of the association pass. -/
def assocInner (item1 : String) (items : List String) (acc : List (String × ℕ)) :
    List (String × ℕ) :=
  items.foldl (fun a item2 =>
    if item1 ≠ item2 then bumpAssoc (pairKey item1 item2) a else a) acc

/-- The outer `items.forEach(item1 => ...)` loop of the association pass. -/
def assocOuter (items : List String) (acc : List (String × ℕ)) : List (String × ℕ) :=
  items.foldl (fun a item1 => assocInner item1 items a) acc

/-- The `associations` counter object of `renderAssociationChart`: for
every invoice gathering more than one line item, every ordered pair of
distinct StockCodes bumps the canonical sorted key. -/
def associations (ts : List Transaction) : List (String × ℕ) :=
  (invoiceGroups ts).foldl (fun acc g =>
    if 1 < g.2.length then assocOuter g.2 acc else acc) []

/-- The number of ordered pairs `(item1, item2)` of an invoice's item list
with distinct values and canonical key `k`. -/
def orderedPairCount (items : List String) (k : String) : ℕ :=
  (items.map fun item1 =>
    items.countP fun item2 => decide (item1 ≠ item2) && decide (pairKey item1 item2 = k)).sum

theorem countOf_bumpAssoc (k : String) (l : List (String × ℕ)) (k' : String) :
    countOf (bumpAssoc k l) k' = countOf l k' + if k' = k then 1 else 0 := by
  induction l with
  | nil =>
      by_cases h : k' = k
      · subst h
        simp [bumpAssoc, countOf]
      · simp [bumpAssoc, countOf, h, Ne.symm h]
  | cons p rest ih =>
      obtain ⟨a, n⟩ := p
      by_cases hak : a = k
      · subst hak
        by_cases hk' : k' = a
        · subst hk'
          simp [bumpAssoc, countOf]
        · simp [bumpAssoc, countOf, hk', Ne.symm hk']
      · simp only [bumpAssoc, if_neg hak]
        by_cases hk' : k' = a
        · subst hk'
          simp [countOf, hak]
        · simp only [countOf, if_neg (Ne.symm hk')]
          exact ih

theorem countOf_assocInner (item1 : String) (k : String) (items : List String) :
    ∀ acc, countOf (assocInner item1 items acc) k =
      countOf acc k +
        items.countP (fun item2 => decide (item1 ≠ item2) && decide (pairKey item1 item2 = k)) := by
  induction items with
  | nil => intro acc; simp [assocInner]
  | cons item2 rest ih =>
      intro acc
      simp only [assocInner, List.foldl_cons, List.countP_cons] at *
      by_cases hne : item1 ≠ item2
      · simp only [if_pos hne]
        rw [ih]
        rw [countOf_bumpAssoc]
        by_cases hk : pairKey item1 item2 = k
        · simp [hne, hk]
          omega
        · simp [hne, hk, Ne.symm hk]
      · simp only [if_neg hne]
        rw [ih]
        simp [hne]

theorem countOf_assocOuter_aux (items : List String) (k : String) :
    ∀ (l : List String) (acc : List (String × ℕ)),
      countOf (l.foldl (fun a item1 => assocInner item1 items a) acc) k =
        countOf acc k +
          (l.map fun item1 =>
            items.countP fun item2 =>
              decide (item1 ≠ item2) && decide (pairKey item1 item2 = k)).sum := by
  intro l
  induction l with
  | nil => intro acc; simp
  | cons item1 rest ih =>
      intro acc
      simp only [List.foldl_cons, List.map_cons, List.sum_cons]
      rw [ih, countOf_assocInner]
      omega

theorem countOf_assocOuter (items : List String) (k : String) (acc : List (String × ℕ)) :
    countOf (assocOuter items acc) k = countOf acc k + orderedPairCount items k := by
  rw [assocOuter, countOf_assocOuter_aux, orderedPairCount]

theorem orderedPairCount_short {items : List String} (h : items.length ≤ 1) (k : String) :
    orderedPairCount items k = 0 := by
  match items, h with
  | [], _ => rfl
  | [x], _ => simp [orderedPairCount, List.countP_cons]

/-- C1 (amended): for every transaction list and key, the association
count equals the total number of ordered pairs of distinct items of each
invoice whose canonical sorted key is that key — so an invoice with items
`[A, B, C]` contributes one increment per ordered pair, i.e. two
increments (not one) to each of the keys `A|B`, `A|C`, `B|C`. -/
theorem associations_count_ordered_pairs (ts : List Transaction) (k : String) :
    countOf (associations ts) k =
      ((invoiceGroups ts).map fun g => orderedPairCount g.2 k).sum := by
  rw [associations]
  have haux : ∀ (gs : List (String × List String)) (acc : List (String × ℕ)),
      countOf (gs.foldl (fun acc g => if 1 < g.2.length then assocOuter g.2 acc else acc) acc) k =
        countOf acc k + (gs.map fun g => orderedPairCount g.2 k).sum := by
    intro gs
    induction gs with
    | nil => intro acc; simp
    | cons g rest ih =>
        intro acc
        simp only [List.foldl_cons, List.map_cons, List.sum_cons]
        by_cases hlen : 1 < g.2.length
        · simp only [if_pos hlen]
          rw [ih, countOf_assocOuter]
          omega
        · simp only [if_neg hlen]
          rw [ih, orderedPairCount_short (by omega)]
          omega
  rw [haux]
  simp [countOf]

/-- Three line items of one invoice, as in the claim's `[A, B, C]`. -/
def assocSampleTs : List Transaction :=
  [{ Invoice := some "I1", StockCode := some "A" },
   { Invoice := some "I1", StockCode := some "B" },
   { Invoice := some "I1", StockCode := some "C" }]

/-- Counterexample to C1: for a single invoice with items `[A, B, C]` the
count stored under the canonical key `A|B` is 2 (one increment per ordered
pair), not 1 as the claim states. -/
theorem associations_double_count_counterexample :
    countOf (associations assocSampleTs) (pairKey "A" "B") = 2 ∧
    countOf (associations assocSampleTs) (pairKey "A" "B") ≠ 1 := by
  refine ⟨by decide, by decide⟩

/-! ## `renderCohortChart` aggregation (script.js lines 966-982) -/

/-- Model of the JS builtin `s.substring(0, n)`. -/
def jsSubstring0 (n : ℕ) (s : String) : String :=
  String.mk (s.data.take n)

/-- The year-month cohort key of a transaction:
`t.InvoiceDate.substring(0, 7)`. -/
def monthKey (t : Transaction) : String :=
  jsSubstring0 7 (t.InvoiceDate.getD "")

/-- `cohorts[m].add(c)` on the insertion-ordered object of per-month
customer `Set`s (creating the set when absent; a `Set` ignores a value it
already holds). -/
def addCustomer (m c : String) : List (String × List String) → List (String × List String)
  | [] => [(m, [c])]
  | (k, l) :: rest =>
      if k = m then (k, if c ∈ l then l else l ++ [c]) :: rest
      else (k, l) :: addCustomer m c rest

/-- The `cohorts` object of `renderCohortChart`: distinct `CustomerID`s
grouped by the year-month of `InvoiceDate`, for transactions whose
`InvoiceDate` and `CustomerID` are both truthy. -/
def cohorts (ts : List Transaction) : List (String × List String) :=
  ts.foldl (fun acc t =>
    if jsTruthyStr t.InvoiceDate && jsTruthyStr t.CustomerID then
      addCustomer (monthKey t) (t.CustomerID.getD "") acc
    else acc) []

/-- JS object property lookup on the cohort object, defaulting to the
empty set. -/
def lookupMembers : List (String × List String) → String → List String
  | [], _ => []
  | p :: rest, k => if p.1 = k then p.2 else lookupMembers rest k

/-- `Object.keys(cohorts).sort().slice(0, 12)`: the first 12 cohort months
in ascending key order. -/
def cohortMonths (ts : List Transaction) : List String :=
  (sortLe jsStrLe ((cohorts ts).map Prod.fst)).take 12

/-- `months.map(m => cohorts[m].size)`: the rendered cohort sizes. -/
def cohortSizes (ts : List Transaction) : List ℕ :=
  (cohortMonths ts).map fun m => (lookupMembers (cohorts ts) m).length

theorem lookupMembers_addCustomer (m c : String) (acc : List (String × List String))
    (m' : String) :
    lookupMembers (addCustomer m c acc) m' =
      if m' = m then
        (if c ∈ lookupMembers acc m then lookupMembers acc m
         else lookupMembers acc m ++ [c])
      else lookupMembers acc m' := by
  induction acc with
  | nil =>
      by_cases h : m' = m
      · subst h
        simp [addCustomer, lookupMembers]
      · simp [addCustomer, lookupMembers, h, Ne.symm h]
  | cons p rest ih =>
      obtain ⟨k, l⟩ := p
      by_cases hkm : k = m
      · subst hkm
        by_cases h : m' = k
        · subst h
          simp [addCustomer, lookupMembers]
        · simp [addCustomer, lookupMembers, h, Ne.symm h]
      · simp only [addCustomer, if_neg hkm]
        by_cases h : m' = k
        · subst h
          simp [lookupMembers, hkm]
        · simp only [lookupMembers, if_neg (Ne.symm h)]
          rw [ih]
          by_cases hmm : m' = m
          · subst hmm
            simp [lookupMembers, hkm]
          · simp [hmm]

/-- The contribution test of one transaction to cohort `m`, customer `c`. -/
def contributesTo (m c : String) (t : Transaction) : Prop :=
  (jsTruthyStr t.InvoiceDate && jsTruthyStr t.CustomerID) = true ∧
    monthKey t = m ∧ t.CustomerID = some c

theorem cohorts_fold_spec (l : List Transaction) :
    ∀ acc : List (String × List String),
      (∀ m c, c ∈ lookupMembers (l.foldl (fun acc t =>
          if jsTruthyStr t.InvoiceDate && jsTruthyStr t.CustomerID then
            addCustomer (monthKey t) (t.CustomerID.getD "") acc
          else acc) acc) m ↔
        c ∈ lookupMembers acc m ∨ ∃ t ∈ l, contributesTo m c t) ∧
      (∀ m, (lookupMembers acc m).Nodup →
        (lookupMembers (l.foldl (fun acc t =>
          if jsTruthyStr t.InvoiceDate && jsTruthyStr t.CustomerID then
            addCustomer (monthKey t) (t.CustomerID.getD "") acc
          else acc) acc) m).Nodup) := by
  induction l with
  | nil =>
      intro acc
      refine ⟨fun m c => ?_, fun m h => by simpa using h⟩
      simp
  | cons t rest ih =>
      intro acc
      simp only [List.foldl_cons]
      by_cases hg : (jsTruthyStr t.InvoiceDate && jsTruthyStr t.CustomerID) = true
      · simp only [if_pos hg]
        have hsome : ∃ s, t.CustomerID = some s ∧ t.CustomerID.getD "" = s := by
          have htr : jsTruthyStr t.CustomerID = true := by
            have h2 := hg
            rw [Bool.and_eq_true] at h2
            exact h2.2
          cases hid : t.CustomerID with
          | none => rw [hid] at htr; simp [jsTruthyStr] at htr
          | some s => exact ⟨s, rfl, rfl⟩
        obtain ⟨s, hids, hgds⟩ := hsome
        constructor
        · intro m c
          rw [(ih (addCustomer (monthKey t) (t.CustomerID.getD "") acc)).1 m c,
            lookupMembers_addCustomer]
          constructor
          · intro h
            rcases h with h | ⟨t', ht', hcon⟩
            · by_cases hm : m = monthKey t
              · rw [if_pos hm] at h
                by_cases hc : t.CustomerID.getD "" ∈ lookupMembers acc (monthKey t)
                · rw [if_pos hc] at h
                  exact Or.inl (by rw [hm]; exact h)
                · rw [if_neg hc] at h
                  rcases List.mem_append.1 h with h' | h'
                  · exact Or.inl (by rw [hm]; exact h')
                  · have hceq : c = t.CustomerID.getD "" := List.mem_singleton.1 h'
                    refine Or.inr ⟨t, List.mem_cons_self t rest, hg, hm.symm, ?_⟩
                    rw [hids]
                    have : c = s := by rw [hceq, hgds]
                    rw [this]
              · rw [if_neg hm] at h
                exact Or.inl h
            · exact Or.inr ⟨t', List.mem_cons_of_mem t ht', hcon⟩
          · intro h
            rcases h with h | ⟨t', ht', hcon⟩
            · by_cases hm : m = monthKey t
              · left
                rw [if_pos hm]
                by_cases hc : t.CustomerID.getD "" ∈ lookupMembers acc (monthKey t)
                · rw [if_pos hc]
                  rw [hm] at h
                  exact h
                · rw [if_neg hc]
                  rw [hm] at h
                  exact List.mem_append.2 (Or.inl h)
              · left
                rw [if_neg hm]
                exact h
            · rcases List.mem_cons.1 ht' with heq | hmem
              · left
                rcases hcon with ⟨hgu, hmk, hcid⟩
                rw [heq] at hmk hcid
                rw [if_pos hmk.symm]
                have hcval : t.CustomerID.getD "" = c := by rw [hcid]; rfl
                by_cases hc : t.CustomerID.getD "" ∈ lookupMembers acc (monthKey t)
                · rw [if_pos hc]
                  rw [← hcval]
                  exact hc
                · rw [if_neg hc]
                  rw [← hcval]
                  exact List.mem_append.2 (Or.inr (List.mem_singleton.2 rfl))
              · exact Or.inr ⟨t', hmem, hcon⟩
        · intro m hnd
          refine (ih _).2 m ?_
          rw [lookupMembers_addCustomer]
          by_cases hm : m = monthKey t
          · rw [if_pos hm]
            rw [hm] at hnd
            by_cases hc : t.CustomerID.getD "" ∈ lookupMembers acc (monthKey t)
            · rw [if_pos hc]
              exact hnd
            · rw [if_neg hc]
              refine List.Nodup.append hnd (List.nodup_singleton _) ?_
              intro x hx hx'
              rw [List.mem_singleton.1 hx'] at hx
              exact hc hx
          · rw [if_neg hm]
            exact hnd
      · simp only [if_neg hg]
        constructor
        · intro m c
          rw [(ih acc).1 m c]
          constructor
          · intro h
            rcases h with h | ⟨t', ht', hcon⟩
            · exact Or.inl h
            · exact Or.inr ⟨t', List.mem_cons_of_mem t ht', hcon⟩
          · intro h
            rcases h with h | ⟨t', ht', hcon⟩
            · exact Or.inl h
            · rcases List.mem_cons.1 ht' with heq | hmem
              · rw [heq] at hcon
                exact absurd hcon.1 hg
              · exact Or.inr ⟨t', hmem, hcon⟩
        · intro m hnd
          exact (ih acc).2 m hnd

/-- C4 (amended): for every transaction list, the cohort aggregation
groups distinct `CustomerID`s by `InvoiceDate` truncated to year-month,
and reports the first 12 months sorted ascending by the year-month key
(chronologically), each with the cardinality of its distinct-customer set:
at most 12 months are shown, the month keys are ascending, each month's
member list is duplicate-free and holds exactly the customers transacting
in that month, and the rendered sizes are those sets' cardinalities. -/
theorem cohortChart_first12_sorted_by_month (ts : List Transaction) :
    (cohortMonths ts).length ≤ 12 ∧
    (cohortMonths ts).Pairwise (fun a b => jsStrLe a b = true) ∧
    (∀ m c, c ∈ lookupMembers (cohorts ts) m ↔ ∃ t ∈ ts, contributesTo m c t) ∧
    (∀ m, (lookupMembers (cohorts ts) m).Nodup) ∧
    cohortSizes ts = (cohortMonths ts).map fun m => (lookupMembers (cohorts ts) m).length := by
  refine ⟨?_, ?_, ?_, ?_, rfl⟩
  · simp [cohortMonths, List.length_take]
  · have hp := sortLe_pairwise jsStrLe jsStrLe_trans jsStrLe_total
      ((cohorts ts).map Prod.fst)
    exact hp.sublist (List.take_sublist 12 _)
  · intro m c
    have h := (cohorts_fold_spec ts []).1 m c
    simpa [cohorts, lookupMembers] using h
  · intro m
    have h := (cohorts_fold_spec ts []).2 m (by simp [lookupMembers])
    simpa [cohorts] using h

/-- Two January customers and one February customer: month order and
cardinality order disagree. -/
def cohortSampleTs : List Transaction :=
  [{ InvoiceDate := some "2021-01-05", CustomerID := some "C1" },
   { InvoiceDate := some "2021-01-09", CustomerID := some "C2" },
   { InvoiceDate := some "2021-02-03", CustomerID := some "C1" }]

/-- Counterexample to C4: the rendered sizes are `[2, 1]` (months in
chronological order), which is not ascending by set cardinality. -/
theorem cohortSizes_not_sorted_by_cardinality :
    cohortSizes cohortSampleTs = [2, 1] ∧
    ¬ (cohortSizes cohortSampleTs).Pairwise (fun a b => a ≤ b) := by
  constructor
  · decide
  · intro h
    have : (2 : ℕ) ≤ 1 := by
      have hs : cohortSizes cohortSampleTs = [2, 1] := by decide
      rw [hs] at h
      exact (List.pairwise_cons.1 h).1 1 (List.mem_singleton.2 rfl)
    omega

/-! ## `fetchDailyPattern` aggregation (script.js lines 423-437) -/

/-- Digits-to-number helper for the `Date` model. -/
def digitsToNat (l : List Char) : ℕ :=
  l.foldl (fun n c => n * 10 + (c.toNat - '0'.toNat)) 0

/-- Model of the browser builtin `new Date(s).getDay()` for ISO
`YYYY-MM-DD...` strings, via the standard civil-calendar day count
(valid for years from 1 on; 1970-01-01 maps to 4, a Thursday). -/
def jsGetDay (s : String) : Fin 7 :=
  let y := digitsToNat (s.data.take 4)
  let m := digitsToNat ((s.data.drop 5).take 2)
  let d := digitsToNat ((s.data.drop 8).take 2)
  let yAdj := if m ≤ 2 then y - 1 else y
  let era := yAdj / 400
  let yoe := yAdj % 400
  let mp := if 2 < m then m - 3 else m + 9
  let doy := (153 * mp + 2) / 5 + (d - 1)
  let doe := yoe * 365 + yoe / 4 - yoe / 100 + doy
  let days := era * 146097 + doe
  ⟨(days + 3) % 7, Nat.mod_lt _ (by omega)⟩

/-- The `dayRevenue` accumulator of `fetchDailyPattern`: 7 buckets indexed
by day of week; each transaction with a truthy `InvoiceDate` adds its
revenue to the bucket of its day.  The external `Date` library is passed
in as the `getDay` function. -/
def dayRevenue (getDay : String → Fin 7) (ts : List Transaction) : Fin 7 → ℚ :=
  ts.foldl (fun acc t =>
    if jsTruthyStr t.InvoiceDate then
      Function.update acc (getDay (t.InvoiceDate.getD ""))
        (acc (getDay (t.InvoiceDate.getD "")) + revenue t)
    else acc) (fun _ => 0)

/-- Total revenue of an input transaction list (the claim's right-hand
side): the sum of `Quantity*Price` over all transactions. -/
def totalRevenue (ts : List Transaction) : ℚ :=
  (ts.map revenue).sum

theorem sum_update_add (acc : Fin 7 → ℚ) (i : Fin 7) (v : ℚ) :
    ∑ d : Fin 7, Function.update acc i (acc i + v) d = (∑ d : Fin 7, acc d) + v := by
  rw [Finset.sum_update_of_mem (Finset.mem_univ i)]
  rw [Finset.sdiff_singleton_eq_erase]
  have h := Finset.add_sum_erase Finset.univ acc (Finset.mem_univ i)
  rw [← h]
  ring

theorem dayRevenue_fold (getDay : String → Fin 7) (l : List Transaction) :
    ∀ acc : Fin 7 → ℚ,
      ∑ d : Fin 7, (l.foldl (fun acc t =>
        if jsTruthyStr t.InvoiceDate then
          Function.update acc (getDay (t.InvoiceDate.getD ""))
            (acc (getDay (t.InvoiceDate.getD "")) + revenue t)
        else acc) acc) d =
      (∑ d : Fin 7, acc d) + ((l.filter fun t => jsTruthyStr t.InvoiceDate).map revenue).sum := by
  induction l with
  | nil => intro acc; simp
  | cons t rest ih =>
      intro acc
      simp only [List.foldl_cons]
      by_cases hg : jsTruthyStr t.InvoiceDate = true
      · rw [if_pos hg, ih, sum_update_add]
        simp only [List.filter_cons, hg, if_pos, List.map_cons, List.sum_cons]
        ring
      · rw [if_neg hg, ih]
        have : (t :: rest).filter (fun t => jsTruthyStr t.InvoiceDate) =
            rest.filter fun t => jsTruthyStr t.InvoiceDate := by
          simp [List.filter_cons, hg]
        simp only [List.filter_cons]
        rw [Bool.not_eq_true] at hg
        simp [hg]

/-- C5 (amended): for every day-of-week mapping (the external `Date`
library) and every transaction list, the sum of the 7 day-of-week revenue
buckets equals the total revenue of the transactions that carry a truthy
`InvoiceDate`; transactions without a date are skipped by the bucketing. -/
theorem dayRevenue_total_of_dated (getDay : String → Fin 7) (ts : List Transaction) :
    ∑ d : Fin 7, dayRevenue getDay ts d =
      ((ts.filter fun t => jsTruthyStr t.InvoiceDate).map revenue).sum := by
  rw [dayRevenue, dayRevenue_fold]
  simp

/-- A transaction with revenue 5 but no `InvoiceDate`. -/
def undatedTx : Transaction :=
  { Quantity := some 1, Price := some 5 }

/-- Counterexample to C5: a dateless transaction with revenue 5 is dropped
by the day-of-week bucketing, so the bucket total 0 differs from the input
total 5. -/
theorem dayRevenue_misses_undated_counterexample :
    (∑ d : Fin 7, dayRevenue jsGetDay [undatedTx] d) = 0 ∧
    totalRevenue [undatedTx] = 5 ∧
    (∑ d : Fin 7, dayRevenue jsGetDay [undatedTx] d) ≠ totalRevenue [undatedTx] := by
  have h1 : (∑ d : Fin 7, dayRevenue jsGetDay [undatedTx] d) = 0 := by
    simp [dayRevenue, jsTruthyStr, undatedTx]
  have h2 : totalRevenue [undatedTx] = 5 := by
    norm_num [totalRevenue, revenue, undatedTx]
  refine ⟨h1, h2, ?_⟩
  rw [h1, h2]
  norm_num

/-! ## `renderForecastChart` (script.js lines 1009-1036) -/

/-- A point of the monthly revenue series returned by `/monthly_trend`. -/
structure MonthPoint where
  year_month : String
  Revenue : ℚ
  deriving DecidableEq

/-- The forecast revenues of `renderForecastChart`: with fewer than 3
points no forecast is made; otherwise `avgGrowth` is the span of the last
three points divided by their count, and the three projected months are
`max(0, last + avgGrowth * i)` for `i = 1, 2, 3`. -/
def forecastRevenues (data : List MonthPoint) : Option (List ℚ) :=
  if data.length < 3 then none
  else
    let lastThree := data.drop (data.length - 3)
    let avgGrowth : ℚ :=
      if 2 ≤ lastThree.length then
        (((lastThree.getLast?.map MonthPoint.Revenue).getD 0) -
          ((lastThree.head?.map MonthPoint.Revenue).getD 0)) / (lastThree.length : ℚ)
      else 0
    let lastRev := (data.getLast?.map MonthPoint.Revenue).getD 0
    some ((List.range 3).map fun i => max 0 (lastRev + avgGrowth * ((i : ℚ) + 1)))

/-- C2 (amended): when the last three monthly points are `a, b, c`, the
projected slope is `(c - a) / 3` — the span of the last three points
divided by the number of points, not the average consecutive delta — and
the three forecasts add it cumulatively to the last revenue, floored at
zero. -/
theorem forecast_slope_is_third_of_span (data : List MonthPoint) (a b c : MonthPoint)
    (h3 : data.drop (data.length - 3) = [a, b, c]) :
    forecastRevenues data =
      some [max 0 (c.Revenue + (c.Revenue - a.Revenue) / 3 * 1),
            max 0 (c.Revenue + (c.Revenue - a.Revenue) / 3 * 2),
            max 0 (c.Revenue + (c.Revenue - a.Revenue) / 3 * 3)] := by
  have hdecomp : data = data.take (data.length - 3) ++ [a, b, c] := by
    rw [← h3, List.take_append_drop]
  have hge : 3 ≤ data.length := by
    rw [hdecomp, List.length_append]
    simp
  have hnlt : ¬data.length < 3 := by omega
  have hlast : data.getLast? = some c := by
    rw [hdecomp]
    rw [show (data.take (data.length - 3) ++ [a, b, c]) =
      ((data.take (data.length - 3) ++ [a, b]) ++ [c]) by simp]
    exact List.getLast?_concat _
  simp only [forecastRevenues, if_neg hnlt, h3, hlast]
  simp [List.range_succ]
  norm_num

/-- The monthly series `[100, 150, 200]` from the claim. -/
def forecastSampleData : List MonthPoint :=
  [⟨"2021-01", 100⟩, ⟨"2021-02", 150⟩, ⟨"2021-03", 200⟩]

/-- Counterexample to C2: for the series `[100, 150, 200]` the first
projected revenue is `200 + 100/3 = 700/3 ≈ 233.33`, not
`max(0, 200 + 50) = 250`: the code divides the span by 3 (the number of
points), not by 2 (the number of deltas). -/
theorem forecast_first_not_250_counterexample :
    ((forecastRevenues forecastSampleData).getD []).head? = some ((700 : ℚ) / 3) ∧
    ((700 : ℚ) / 3) ≠ 250 := by
  constructor
  · simp [forecastRevenues, forecastSampleData, List.range_succ]
    rw [max_eq_right (by norm_num)]
    norm_num
  · norm_num

/-- Witness for C2 at the claim's series. -/
theorem forecast_slope_is_third_of_span_witness :
    forecastRevenues forecastSampleData =
      some [max 0 ((200 : ℚ) + ((200 : ℚ) - 100) / 3 * 1),
            max 0 ((200 : ℚ) + ((200 : ℚ) - 100) / 3 * 2),
            max 0 ((200 : ℚ) + ((200 : ℚ) - 100) / 3 * 3)] :=
  forecast_slope_is_third_of_span forecastSampleData
    ⟨"2021-01", 100⟩ ⟨"2021-02", 150⟩ ⟨"2021-03", 200⟩ rfl

/-! ## Transactions table pagination (script.js lines 712-766) -/

/-- `pageSize` module variable. -/
def pageSize : ℕ := 50

/-- The module-level pagination state over the client-held transaction
list. -/
structure TxState where
  currentTransactions : List Transaction
  currentPage : ℤ
  deriving DecidableEq

/-- The rendered body of the transactions table. -/
inductive TableView where
  | noData
  | rows (pageData : List Transaction)
  deriving DecidableEq

/-- `renderTransactionsTable` from `script.js`: an empty list renders the
single "No transactions found" row; otherwise the rows are
`transactions.slice(start, start + pageSize)` with
`start = (currentPage - 1) * pageSize`. -/
def renderTransactionsTable (st : TxState) : TableView :=
  if st.currentTransactions.length = 0 then .noData
  else .rows ((st.currentTransactions.drop
    (((st.currentPage - 1) * (pageSize : ℤ)).toNat)).take pageSize)

/-- `Math.ceil(total / pageSize)` from `renderPagination`. -/
def totalPages (total : ℕ) : ℕ :=
  ⌈(total : ℚ) / (pageSize : ℚ)⌉₊

/-- `changePage` from `script.js`: out-of-range targets are ignored. -/
def changePage (page : ℤ) (st : TxState) : TxState :=
  if page < 1 ∨ (totalPages st.currentTransactions.length : ℤ) < page then st
  else { st with currentPage := page }

theorem totalPages_eq (n : ℕ) : totalPages n = (n + 49) / 50 := by
  have hdm := Nat.div_add_mod (n + 49) 50
  have hlt : (n + 49) % 50 < 50 := Nat.mod_lt _ (by norm_num)
  apply le_antisymm
  · rw [totalPages, pageSize, Nat.ceil_le]
    push_cast
    rw [div_le_iff₀ (by norm_num : (0 : ℚ) < 50)]
    have hnat : n ≤ (n + 49) / 50 * 50 := by omega
    exact_mod_cast hnat
  · by_cases hz : (n + 49) / 50 = 0
    · simp [hz]
    · have hm1 : (n + 49) / 50 - 1 < totalPages n := by
        rw [totalPages, pageSize, Nat.lt_ceil]
        push_cast
        rw [lt_div_iff₀ (by norm_num : (0 : ℚ) < 50)]
        have hnat : ((n + 49) / 50 - 1) * 50 < n := by omega
        exact_mod_cast hnat
      omega

/-- C7: rendering with an empty list shows the "no data" row; the reported
page count is `ceil(N/50)`; page 1 shows exactly the records at indices
`[0, 50)`; and `changePage` keeps the current page inside
`[1, ceil(N/50)]`. -/
theorem renderTransactionsTable_pagination (st : TxState) (p : ℤ) :
    (renderTransactionsTable { st with currentTransactions := [] } = .noData) ∧
    (totalPages st.currentTransactions.length = (st.currentTransactions.length + 49) / 50) ∧
    (st.currentPage = 1 → st.currentTransactions ≠ [] →
      renderTransactionsTable st = .rows (st.currentTransactions.take 50)) ∧
    (1 ≤ st.currentPage → st.currentPage ≤ (totalPages st.currentTransactions.length : ℤ) →
      1 ≤ (changePage p st).currentPage ∧
        (changePage p st).currentPage ≤
          (totalPages (changePage p st).currentTransactions.length : ℤ)) := by
  refine ⟨?_, totalPages_eq _, ?_, ?_⟩
  · simp [renderTransactionsTable]
  · intro h1 hne
    have hlen : st.currentTransactions.length ≠ 0 := by
      simpa [List.length_eq_zero] using hne
    rw [renderTransactionsTable, if_neg hlen, h1]
    norm_num [pageSize]
  · intro hlo hhi
    rw [changePage]
    by_cases hif : p < 1 ∨ (totalPages st.currentTransactions.length : ℤ) < p
    · rw [if_pos hif]
      exact ⟨hlo, hhi⟩
    · rw [if_neg hif]
      push_neg at hif
      exact ⟨hif.1, hif.2⟩

/-- 120 placeholder transactions for the C7 witness. -/
def paginationSampleTs : List Transaction :=
  List.replicate 120 {}

/-- Witness for C7: with 120 records there are 3 pages, page 1 renders the
first 50 records, and `changePage 3` stays within `[1, 3]`. -/
theorem renderTransactionsTable_pagination_witness :
    renderTransactionsTable ⟨paginationSampleTs, 1⟩ = .rows (paginationSampleTs.take 50) ∧
    (1 ≤ (changePage 3 ⟨paginationSampleTs, 1⟩).currentPage ∧
      (changePage 3 ⟨paginationSampleTs, 1⟩).currentPage ≤
        (totalPages (changePage 3 ⟨paginationSampleTs, 1⟩).currentTransactions.length : ℤ)) := by
  have h := renderTransactionsTable_pagination ⟨paginationSampleTs, 1⟩ 3
  have hlen : paginationSampleTs.length = 120 := by
    simp [paginationSampleTs]
  have htp : (totalPages 120 : ℤ) = 3 := by
    rw [totalPages_eq]
    norm_num
  refine ⟨h.2.2.1 rfl ?_, h.2.2.2 (by norm_num) ?_⟩
  · simp [paginationSampleTs]
  · show (1 : ℤ) ≤ (totalPages (⟨paginationSampleTs, 1⟩ : TxState).currentTransactions.length : ℤ)
    have : (⟨paginationSampleTs, 1⟩ : TxState).currentTransactions.length = 120 := hlen
    rw [this, htp]
    norm_num

/-! ## Transaction modal and submit (script.js lines 768-833) -/

/-- The form fields of the transaction modal, at input-value level. -/
structure FormState where
  invoice : String
  stockCode : String
  description : String
  customerID : String
  country : String
  invoiceDate : String
  quantity : ℤ
  price : ℚ
  deriving DecidableEq

/-- The modal-related module state. -/
structure ModalState where
  currentTransactions : List Transaction
  editingTransactionId : Option String
  modalTitle : String
  form : FormState
  modalActive : Bool

/-- The field values written by the edit branch of
`openTransactionModal`: each field takes the record's value with the JS
`||` defaults (`''`, `1`, `0`), and the date field is rewritten only when
the record has a truthy `InvoiceDate` (via the external `Date` formatter
`dateFmt`, modelling `d => new Date(d).toISOString().slice(0, 16)`). -/
def prefillForm (dateFmt : String → String) (t : Transaction) (old : FormState) : FormState :=
  { invoice := t.Invoice.getD ""
    stockCode := t.StockCode.getD ""
    description := t.Description.getD ""
    customerID := t.CustomerID.getD ""
    country := t.Country.getD ""
    invoiceDate :=
      if jsTruthyStr t.InvoiceDate then dateFmt (t.InvoiceDate.getD "")
      else old.invoiceDate
    quantity := match t.Quantity with
      | some q => if q = 0 then 1 else q
      | none => 1
    price := t.Price.getD 0 }

/-- `openTransactionModal` from `script.js`: store the id in
`editingTransactionId`; with a truthy id, set the edit title and pre-fill
the form from the matching in-memory record (if any); otherwise set the
add title and reset the form (`resetForm` models `form.reset()`); always
activate the modal. -/
def openTransactionModal (dateFmt : String → String) (resetForm : FormState)
    (id : Option String) (st : ModalState) : ModalState :=
  let st1 := { st with editingTransactionId := id, modalActive := true }
  if jsTruthyStr id then
    match st.currentTransactions.find? (fun t => t._id = id) with
    | some tr =>
        { st1 with
            modalTitle := "Edit Transaction"
            form := prefillForm dateFmt tr st.form }
    | none => { st1 with modalTitle := "Edit Transaction" }
  else
    { st1 with modalTitle := "Add New Transaction", form := resetForm }

/-- The fixed-shape JSON payload built by `handleTransactionSubmit`. -/
structure Payload where
  Invoice : String
  StockCode : String
  Description : String
  CustomerID : String
  Country : String
  InvoiceDate : String
  Quantity : ℤ
  Price : ℚ
  deriving DecidableEq

/-- The payload of `handleTransactionSubmit`: the form values, with the
current time (`now`, modelling `new Date().toISOString()`) substituted for
an empty date. -/
def mkPayload (now : String) (f : FormState) : Payload :=
  { Invoice := f.invoice
    StockCode := f.stockCode
    Description := f.description
    CustomerID := f.customerID
    Country := f.country
    InvoiceDate := if f.invoiceDate ≠ "" then f.invoiceDate else now
    Quantity := f.quantity
    Price := f.price }

/-- An HTTP request issued by the submit handler. -/
structure Request where
  method : String
  url : String
  body : Payload
  deriving DecidableEq

/-- `handleTransactionSubmit` from `script.js`: build the payload, then
`PUT {apiBase}/transactions/{id}` when `editingTransactionId` is truthy,
else `POST {apiBase}/transactions`. -/
def handleTransactionSubmit (apiBase now : String) (st : ModalState) : Request :=
  let payload := mkPayload now st.form
  if jsTruthyStr st.editingTransactionId then
    { method := "PUT"
      url := apiBase ++ "/transactions/" ++ st.editingTransactionId.getD ""
      body := payload }
  else
    { method := "POST", url := apiBase ++ "/transactions", body := payload }

/-- C9: opening the modal with an existing id pre-fills every form field
from the matching in-memory record and stores the id; submitting with a
null editing id issues `POST {apiBase}/transactions`, while submitting
with a (non-empty) id `s` issues `PUT {apiBase}/transactions/s`; both
requests carry the same fixed-shape payload built from the form. -/
theorem modal_edit_and_submit (dateFmt : String → String) (resetForm : FormState)
    (apiBase now : String) (st : ModalState) (id : String) (tr : Transaction)
    (hid : id ≠ "")
    (hfind : st.currentTransactions.find? (fun t => t._id = some id) = some tr) :
    ((openTransactionModal dateFmt resetForm (some id) st).editingTransactionId = some id ∧
     (openTransactionModal dateFmt resetForm (some id) st).modalTitle = "Edit Transaction" ∧
     (openTransactionModal dateFmt resetForm (some id) st).form.invoice = tr.Invoice.getD "" ∧
     (openTransactionModal dateFmt resetForm (some id) st).form.stockCode = tr.StockCode.getD "" ∧
     (openTransactionModal dateFmt resetForm (some id) st).form.description = tr.Description.getD "" ∧
     (openTransactionModal dateFmt resetForm (some id) st).form.customerID = tr.CustomerID.getD "" ∧
     (openTransactionModal dateFmt resetForm (some id) st).form.country = tr.Country.getD "" ∧
     (openTransactionModal dateFmt resetForm (some id) st).form.invoiceDate =
       (if jsTruthyStr tr.InvoiceDate then dateFmt (tr.InvoiceDate.getD "")
        else st.form.invoiceDate) ∧
     (openTransactionModal dateFmt resetForm (some id) st).form.quantity =
       (match tr.Quantity with
        | some q => if q = 0 then 1 else q
        | none => 1) ∧
     (openTransactionModal dateFmt resetForm (some id) st).form.price = tr.Price.getD 0) ∧
    (∀ st' : ModalState, st'.editingTransactionId = none →
      handleTransactionSubmit apiBase now st' =
        { method := "POST"
          url := apiBase ++ "/transactions"
          body := mkPayload now st'.form }) ∧
    (∀ (st' : ModalState) (s : String), st'.editingTransactionId = some s → s ≠ "" →
      handleTransactionSubmit apiBase now st' =
        { method := "PUT"
          url := apiBase ++ "/transactions/" ++ s
          body := mkPayload now st'.form }) := by
  have hopen : openTransactionModal dateFmt resetForm (some id) st =
      { st with
          editingTransactionId := some id
          modalActive := true
          modalTitle := "Edit Transaction"
          form := prefillForm dateFmt tr st.form } := by
    rw [openTransactionModal]
    have ht : jsTruthyStr (some id) = true := by simp [jsTruthyStr, hid]
    rw [if_pos ht, hfind]
  refine ⟨?_, ?_, ?_⟩
  · rw [hopen]
    exact ⟨rfl, rfl, rfl, rfl, rfl, rfl, rfl, rfl, rfl, rfl⟩
  · intro st' hnone
    rw [handleTransactionSubmit, if_neg]
    rw [hnone]
    simp [jsTruthyStr]
  · intro st' s hsome hs
    rw [handleTransactionSubmit, if_pos]
    · rw [hsome]
      rfl
    · rw [hsome]
      simp [jsTruthyStr, hs]

/-- A stored transaction for the C9 witness. -/
def modalSampleTx : Transaction :=
  { _id := some "t1", Invoice := some "INV1", StockCode := some "SC1",
    Description := some "WIDGET", Quantity := some 2, Price := some 3,
    CustomerID := some "C9", Country := some "UK",
    InvoiceDate := some "2021-01-01T00:00:00Z" }

/-- A starting modal state for the C9 witness. -/
def modalSampleState : ModalState :=
  { currentTransactions := [modalSampleTx]
    editingTransactionId := none
    modalTitle := ""
    modalActive := false
    form :=
      { invoice := ""
        stockCode := ""
        description := ""
        customerID := ""
        country := ""
        invoiceDate := ""
        quantity := 1
        price := 0 } }

/-- Witness for C9 at a concrete state: the prefill of `t1`'s record and
the POST/PUT selection. -/
theorem modal_edit_and_submit_witness :
    ((openTransactionModal (fun s => s) modalSampleState.form (some "t1")
        modalSampleState).editingTransactionId = some "t1" ∧
     (openTransactionModal (fun s => s) modalSampleState.form (some "t1")
        modalSampleState).modalTitle = "Edit Transaction" ∧
     (openTransactionModal (fun s => s) modalSampleState.form (some "t1")
        modalSampleState).form.invoice = modalSampleTx.Invoice.getD "" ∧
     (openTransactionModal (fun s => s) modalSampleState.form (some "t1")
        modalSampleState).form.stockCode = modalSampleTx.StockCode.getD "" ∧
     (openTransactionModal (fun s => s) modalSampleState.form (some "t1")
        modalSampleState).form.description = modalSampleTx.Description.getD "" ∧
     (openTransactionModal (fun s => s) modalSampleState.form (some "t1")
        modalSampleState).form.customerID = modalSampleTx.CustomerID.getD "" ∧
     (openTransactionModal (fun s => s) modalSampleState.form (some "t1")
        modalSampleState).form.country = modalSampleTx.Country.getD "" ∧
     (openTransactionModal (fun s => s) modalSampleState.form (some "t1")
        modalSampleState).form.invoiceDate =
       (if jsTruthyStr modalSampleTx.InvoiceDate
        then (fun s => s) (modalSampleTx.InvoiceDate.getD "")
        else modalSampleState.form.invoiceDate) ∧
     (openTransactionModal (fun s => s) modalSampleState.form (some "t1")
        modalSampleState).form.quantity =
       (match modalSampleTx.Quantity with
        | some q => if q = 0 then 1 else q
        | none => 1) ∧
     (openTransactionModal (fun s => s) modalSampleState.form (some "t1")
        modalSampleState).form.price = modalSampleTx.Price.getD 0) ∧
    (∀ st' : ModalState, st'.editingTransactionId = none →
      handleTransactionSubmit "/api" "2021-06-01T00:00:00Z" st' =
        { method := "POST"
          url := "/api" ++ "/transactions"
          body := mkPayload "2021-06-01T00:00:00Z" st'.form }) ∧
    (∀ (st' : ModalState) (s : String), st'.editingTransactionId = some s → s ≠ "" →
      handleTransactionSubmit "/api" "2021-06-01T00:00:00Z" st' =
        { method := "PUT"
          url := "/api" ++ "/transactions/" ++ s
          body := mkPayload "2021-06-01T00:00:00Z" st'.form }) :=
  modal_edit_and_submit (fun s => s) modalSampleState.form "/api" "2021-06-01T00:00:00Z"
    modalSampleState "t1" modalSampleTx (by decide) (by decide)

end RetailAnalytics
